import Mathlib

/-!
# Verification of the hh.ru scrape-parse-persist service (`src/app/main.py`)

A shallow embedding of the core pipeline of `src/app/main.py`:

* the encoding detect-then-decode step of `get_vacancies` / `get_applicants`
  (the unconditional `response.content.decode('utf-8')`, `chardet.detect`,
  and the second `decode(detected)`),
* salary coercion (`.replace('руб.', '').replace(' ', '')` followed by
  Python `int(...)` with `ValueError` caught),
* the per-block normalize-and-insert loops of both endpoints, and
* the non-200 early abort (`raise HTTPException(status_code, detail=...)`).

Python strings are `String` / `List Char`; raw response bytes are
`List Nat` (each `< 256`); exceptions are `Except` errors; the database is
an explicit pair of tables that the insert step threads through.
-/

set_option autoImplicit false

namespace HHService

/-! ## Python string primitives used by the source -/

/-- The whitespace set of CPython's `str.strip` / leading-trailing stripping
inside `int(...)` (`Py_UNICODE_ISSPACE`): ASCII whitespace, the C0 field
separators, NEL, NBSP and the Unicode space separators.  Python's `re` module
uses the same set for `\s` on `str` patterns. -/
def isPyWhitespace (c : Char) : Bool :=
  let n := c.toNat
  n = 0x20 || n = 0x9 || n = 0xa || n = 0xd || n = 0xb || n = 0xc ||
  (0x1c ≤ n && n ≤ 0x1f) || n = 0x85 || n = 0xa0 || n = 0x1680 ||
  (0x2000 ≤ n && n ≤ 0x200a) || n = 0x2028 || n = 0x2029 ||
  n = 0x202f || n = 0x205f || n = 0x3000

/-- One left-to-right, non-overlapping scan of Python's
`s.replace(pat, '')` for a non-empty `pat`, written with an explicit fuel
argument (instantiated with `s.length`, which bounds the number of scan
steps) so that the function is structurally recursive and computable by the
kernel. -/
def replaceAux (pat : List Char) : Nat → List Char → List Char
  | _, [] => []
  | 0, s => s
  | fuel + 1, c :: rest =>
    if pat.isPrefixOf (c :: rest) && !pat.isEmpty then
      replaceAux pat fuel ((c :: rest).drop pat.length)
    else
      c :: replaceAux pat fuel rest

/-- Python `s.replace(pat, '')` for non-empty `pat`: delete every
left-to-right non-overlapping occurrence of `pat` in `s`. -/
def listReplace (s pat : List Char) : List Char :=
  replaceAux pat s.length s

/-- The digit value of an ASCII digit character. -/
def digitVal (c : Char) : Nat := c.toNat - 48

/-- ASCII digit test of the `int(...)` scanner. -/
def isDig (c : Char) : Bool := 48 ≤ c.toNat && c.toNat ≤ 57

/-- The digit scanner of CPython `int(...)` after the optional sign: ASCII
digits, with a single underscore allowed only between two digits.
(CPython also accepts non-ASCII decimal digits; the scraped pages never
produce them and every input in this development is ASCII-digit, so the
model covers the ASCII-digit fragment.) -/
def digitCore : Nat → List Char → Option Nat
  | acc, [] => some acc
  | acc, c :: rest =>
    if isDig c then digitCore (10 * acc + digitVal c) rest
    else if c = '_' then
      match rest with
      | d :: rest2 => if isDig d then digitCore (10 * acc + digitVal d) rest2 else none
      | [] => none
    else none

/-- Parse a non-empty digit sequence (underscores between digits allowed);
`none` models `ValueError`. -/
def parseDigits (s : List Char) : Option Nat :=
  match s with
  | c :: _ => if isDig c then digitCore 0 s else none
  | [] => none

/-- Strip leading and trailing Python whitespace, as `int(...)` does before
reading the sign and digits. -/
def pyStrip (s : List Char) : List Char :=
  (((s.dropWhile isPyWhitespace).reverse.dropWhile isPyWhitespace)).reverse

/-- CPython `int(s)` on a `str`: strip surrounding whitespace, read an
optional single sign, then digits; `none` models a raised `ValueError`. -/
def pyIntParse (s : List Char) : Option Int :=
  match pyStrip s with
  | [] => none
  | c :: rest =>
    if c = '+' then (parseDigits rest).map Int.ofNat
    else if c = '-' then (parseDigits rest).map (fun n => -(n : Int))
    else (parseDigits (c :: rest)).map Int.ofNat

/-- Python `', '.join(tokens)` (`sep.join`) : tokens interleaved with the
separator. -/
def pyJoin (sep : String) : List String → String
  | [] => ""
  | [x] => x
  | x :: y :: rest => x ++ sep ++ pyJoin sep (y :: rest)

/-- Python truthiness of an optional string (`if title and description:`,
`if name:`): `None` and the empty string are falsy. -/
def pyTruthy : Option String → Bool
  | none => false
  | some s => !s.isEmpty

/-! ## Salary coercion (`get_vacancies`, the `salary_element` branch) -/

/-- The currency token `'руб.'` stripped by the source. -/
def rubChars : List Char := ['р', 'у', 'б', '.']

/-- `salary_element.text.replace('руб.', '').replace(' ', '')`: first delete
every occurrence of the currency token, then delete every ASCII space. -/
def cleanSalary (t : List Char) : List Char :=
  listReplace (listReplace t rubChars) [' ']

/-- The whole salary branch: `salary = None`; if the sidebar element matched,
clean its text and attempt `int(...)`, storing `None` on `ValueError`. -/
def parseSalary : Option String → Option Int
  | none => none
  | some t => pyIntParse (cleanSalary t.data)

/-! ## Data model

`Vacancy` and `Applicant` mirror the SQLAlchemy models: an integer identity
assigned by storage on insert, plus the scraped columns.  The `Data`
variants are a record before insertion (the keyword arguments of the
`Vacancy(...)` / `Applicant(...)` constructor calls). -/

structure VacancyData where
  title : String
  description : String
  skills : String
  employment_format : Option String
  salary : Option Int
deriving DecidableEq

structure Vacancy where
  id : Nat
  title : String
  description : String
  skills : String
  employment_format : Option String
  salary : Option Int
deriving DecidableEq

/-- The non-identity columns of a persisted vacancy. -/
def Vacancy.data (v : Vacancy) : VacancyData :=
  ⟨v.title, v.description, v.skills, v.employment_format, v.salary⟩

structure ApplicantData where
  name : String
  skills : String
deriving DecidableEq

structure Applicant where
  id : Nat
  name : String
  skills : String
deriving DecidableEq

/-- The non-identity columns of a persisted applicant. -/
def Applicant.data (a : Applicant) : ApplicantData :=
  ⟨a.name, a.skills⟩

/-- The relational store: the `vacancies` and `applicants` tables in insertion
order.  The auto-assigned identity is the row number. -/
structure DB where
  vacancies : List Vacancy
  applicants : List Applicant
deriving DecidableEq

def emptyDB : DB := ⟨[], []⟩

/-- `db.add(vac); db.commit(); db.refresh(vac)`: insert one vacancy row as its
own atomic unit and read back the generated identity. -/
def insertVacancy (db : DB) (d : VacancyData) : Vacancy × DB :=
  let v : Vacancy :=
    ⟨db.vacancies.length + 1, d.title, d.description, d.skills, d.employment_format, d.salary⟩
  (v, { db with vacancies := db.vacancies ++ [v] })

/-- `db.add(appl); db.commit(); db.refresh(appl)` for the applicants table. -/
def insertApplicant (db : DB) (d : ApplicantData) : Applicant × DB :=
  let a : Applicant := ⟨db.applicants.length + 1, d.name, d.skills⟩
  (a, { db with applicants := db.applicants ++ [a] })

/-! ## Field blocks and normalization -/

/-- The per-candidate field mapping extracted from one `.vacancy-serp-item`
block: each `select_one(...)` either matched (its `.text`) or yielded `None`;
`select` for skills yields a list of token texts (empty when nothing
matched). -/
structure FieldBlock where
  title : Option String
  description : Option String
  skills : List String
  employment_format : Option String
  sidebar : Option String
deriving DecidableEq

/-- The per-candidate field mapping of one `.resume-serp-item` block. -/
structure ApplicantBlock where
  name : Option String
  skills : List String
deriving DecidableEq

/-- The body of the vacancy loop up to the `if title and description:` check:
either the typed record passed to the `Vacancy(...)` constructor, or `none`
when the block is skipped (the `else` branch only logs a warning). -/
def normalizeVacancy (b : FieldBlock) : Option VacancyData :=
  if pyTruthy b.title && pyTruthy b.description then
    some ⟨b.title.getD "", b.description.getD "", pyJoin ", " b.skills,
          b.employment_format, parseSalary b.sidebar⟩
  else none

/-- The `if name:` check of the applicant loop. -/
def normalizeApplicant (b : ApplicantBlock) : Option ApplicantData :=
  if pyTruthy b.name then
    some ⟨b.name.getD "", pyJoin ", " b.skills⟩
  else none

/-- The `for vacancy in soup.select('.vacancy-serp-item'):` loop:
`vacancies = []`, then for each block normalize, and if a record results,
insert it (own commit) and append it to the result list. -/
def vacancyLoop : List FieldBlock → List Vacancy → DB → List Vacancy × DB
  | [], acc, db => (acc, db)
  | b :: rest, acc, db =>
    match normalizeVacancy b with
    | none => vacancyLoop rest acc db
    | some d =>
      let (v, db') := insertVacancy db d
      vacancyLoop rest (acc ++ [v]) db'

/-- The `for applicant in soup.select('.resume-serp-item'):` loop. -/
def applicantLoop : List ApplicantBlock → List Applicant → DB → List Applicant × DB
  | [], acc, db => (acc, db)
  | b :: rest, acc, db =>
    match normalizeApplicant b with
    | none => applicantLoop rest acc db
    | some d =>
      let (a, db') := insertApplicant db d
      applicantLoop rest (acc ++ [a]) db'

/-! ## Encoding detection and decoding -/

/-- Is `b` a UTF-8 continuation byte? -/
def isCont (b : Nat) : Bool := 0x80 ≤ b && b ≤ 0xBF

/-- Does strict UTF-8 decoding of these bytes succeed?  This is the success
predicate of CPython `bytes.decode('utf-8')` (strict errors): the standard
well-formedness table, rejecting overlong forms, surrogates and code points
above `U+10FFFF`.  The decoded value itself is irrelevant: the source
discards the first decode's result and computes the second one through the
detected codec, modelled separately. -/
def utf8Valid : List Nat → Bool
  | [] => true
  | b :: rest =>
    if b ≤ 0x7F then utf8Valid rest
    else if 0xC2 ≤ b && b ≤ 0xDF then
      match rest with
      | c1 :: r => isCont c1 && utf8Valid r
      | [] => false
    else if b = 0xE0 then
      match rest with
      | c1 :: c2 :: r => (0xA0 ≤ c1 && c1 ≤ 0xBF) && isCont c2 && utf8Valid r
      | _ => false
    else if (0xE1 ≤ b && b ≤ 0xEC) || b = 0xEE || b = 0xEF then
      match rest with
      | c1 :: c2 :: r => isCont c1 && isCont c2 && utf8Valid r
      | _ => false
    else if b = 0xED then
      match rest with
      | c1 :: c2 :: r => (0x80 ≤ c1 && c1 ≤ 0x9F) && isCont c2 && utf8Valid r
      | _ => false
    else if b = 0xF0 then
      match rest with
      | c1 :: c2 :: c3 :: r => (0x90 ≤ c1 && c1 ≤ 0xBF) && isCont c2 && isCont c3 && utf8Valid r
      | _ => false
    else if 0xF1 ≤ b && b ≤ 0xF3 then
      match rest with
      | c1 :: c2 :: c3 :: r => isCont c1 && isCont c2 && isCont c3 && utf8Valid r
      | _ => false
    else if b = 0xF4 then
      match rest with
      | c1 :: c2 :: c3 :: r => (0x80 ≤ c1 && c1 ≤ 0x8F) && isCont c2 && isCont c3 && utf8Valid r
      | _ => false
    else false

/-- The Python exceptions the decode step can raise. -/
inductive PyError where
  | unicodeDecodeError : PyError
  | typeError : PyError
deriving DecidableEq

/-- Lines 107-117 of `get_vacancies` (and the identical lines 172-182 of
`get_applicants`): `decoded_content = response.content.decode('utf-8')`
unconditionally, then `encoding = chardet.detect(response.content)['encoding']`
and `decoded_content = response.content.decode(encoding)`.

`detect` is the `chardet` collaborator (`none` = a `None` encoding in its
result dict, which `chardet` returns for empty or undetectable input), and
`decodeWith` is the Python codec registry (`none` = the codec raised).
`bytes.decode(None)` raises `TypeError` before any decoding. -/
def decodeStep (content : List Nat) (detect : List Nat → Option String)
    (decodeWith : String → List Nat → Option String) : Except PyError String :=
  if utf8Valid content then
    match detect content with
    | none => Except.error PyError.typeError
    | some enc =>
      match decodeWith enc content with
      | none => Except.error PyError.unicodeDecodeError
      | some s => Except.ok s
  else Except.error PyError.unicodeDecodeError

/-! ## The endpoints -/

/-- How a request terminates abnormally: a deliberate
`raise HTTPException(status, detail)`, or an uncaught Python exception
escaping the handler. -/
inductive AppError where
  | httpException : Nat → String → AppError
  | uncaught : PyError → AppError
deriving DecidableEq

/-- `GET /vacancies` from the fetched response onward: abort with the
upstream status on non-200, run the detect-then-decode step, extract the
item blocks from the decoded document (`extract` stands for
`BeautifulSoup(...).select('.vacancy-serp-item')` plus the per-field
sub-selects), then run the normalize-and-insert loop.  The debugging write
of `page_content.html` touches no modelled state. -/
def getVacancies (status : Nat) (content : List Nat)
    (detect : List Nat → Option String)
    (decodeWith : String → List Nat → Option String)
    (extract : String → List FieldBlock)
    (db : DB) : Except AppError (List Vacancy) × DB :=
  if status ≠ 200 then
    (Except.error (AppError.httpException status "Error fetching data from hh.ru"), db)
  else
    match decodeStep content detect decodeWith with
    | Except.error e => (Except.error (AppError.uncaught e), db)
    | Except.ok text =>
      let (vs, db') := vacancyLoop (extract text) [] db
      (Except.ok vs, db')

/-- `GET /applicants` from the fetched response onward; identical shape with
the resume selectors. -/
def getApplicants (status : Nat) (content : List Nat)
    (detect : List Nat → Option String)
    (decodeWith : String → List Nat → Option String)
    (extract : String → List ApplicantBlock)
    (db : DB) : Except AppError (List Applicant) × DB :=
  if status ≠ 200 then
    (Except.error (AppError.httpException status "Error fetching data from hh.ru"), db)
  else
    match decodeStep content detect decodeWith with
    | Except.error e => (Except.error (AppError.uncaught e), db)
    | Except.ok text =>
      let (as, db') := applicantLoop (extract text) [] db
      (Except.ok as, db')

/-! ## The response models (pydantic) -/

/-- The field names of `VacancyBase`: `title`, `description`, `skills`,
`employment_format` (each declared `str`). -/
def vacancyBaseFields : List String :=
  ["title", "description", "skills", "employment_format"]

/-- The field names of `VacancyResponse`, the `response_model` of
`GET /vacancies`: `VacancyBase` plus `id`.  These are exactly the keys the
endpoint serializes for each record. -/
def vacancyResponseFields : List String :=
  vacancyBaseFields ++ ["id"]

/-- The field names of `ApplicantResponse` (`ApplicantBase` plus `id`). -/
def applicantResponseFields : List String :=
  ["name", "skills", "id"]

/-- Formalised from the spec, for comparison with `vacancyResponseFields`:
the field set the spec asserts for each `GET /vacancies` response record
(`{id, title, description, skills, employment_format, salary}`). -/
def claimedVacancyFields : List String :=
  ["id", "title", "description", "skills", "employment_format", "salary"]

/-- Formalised from the spec's testable property, for refutation: the
pattern `[\d\s]+руб\.` anchored at both ends — one or more
digit-or-whitespace characters followed by the currency suffix (`\s` is
Python's `str`-pattern whitespace class). -/
def matchesSalaryPattern (s : String) : Bool :=
  let l := s.data
  let n := l.length
  decide (4 < n) && l.drop (n - 4) == rubChars &&
    (l.take (n - 4)).all (fun c => isDig c || isPyWhitespace c)

/-! ## Lemmas about the string primitives -/

theorem replaceAux_nil (pat : List Char) (fuel : Nat) : replaceAux pat fuel [] = [] := by
  cases fuel <;> rfl

theorem mem_of_mem_replaceAux {pat : List Char} {x : Char} :
    ∀ (fuel : Nat) (s : List Char), x ∈ replaceAux pat fuel s → x ∈ s := by
  intro fuel
  induction fuel with
  | zero =>
    intro s hx
    cases s with
    | nil => simp [replaceAux] at hx
    | cons c rest => simpa [replaceAux] using hx
  | succ fuel ih =>
    intro s hx
    cases s with
    | nil => simp [replaceAux] at hx
    | cons c rest =>
      rw [replaceAux] at hx
      split at hx
      · exact List.drop_subset _ _ (ih _ hx)
      · rcases List.mem_cons.1 hx with h | h
        · exact List.mem_cons.2 (Or.inl h)
        · exact List.mem_cons.2 (Or.inr (ih _ h))

theorem count_replaceAux {pat : List Char} {x : Char} (hx : x ∉ pat) :
    ∀ (fuel : Nat) (s : List Char), s.length ≤ fuel →
      (replaceAux pat fuel s).count x = s.count x := by
  intro fuel
  induction fuel with
  | zero =>
    intro s hs
    interval_cases h : s.length
    · rw [List.length_eq_zero.1 h, replaceAux_nil]
  | succ fuel ih =>
    intro s hs
    cases s with
    | nil => rw [replaceAux_nil]
    | cons c rest =>
      rw [replaceAux]
      split
      · rename_i hcond
        simp only [Bool.and_eq_true] at hcond
        have hpre : pat <+: c :: rest := List.isPrefixOf_iff_prefix.1 hcond.1
        obtain ⟨t, ht⟩ := hpre
        have hne : pat ≠ [] := by
          have := hcond.2
          simpa [List.isEmpty_iff] using this
        have hdrop : (c :: rest).drop pat.length = t := by
          rw [← ht, List.drop_left]
        have hpat : 1 ≤ pat.length := by
          cases pat with
          | nil => exact absurd rfl hne
          | cons _ _ => simp
        have htlen : t.length ≤ fuel := by
          have hlen : (c :: rest).length = pat.length + t.length := by
            rw [← ht, List.length_append]
          simp only [List.length_cons] at hs hlen
          omega
        rw [hdrop, ih t htlen, ← ht, List.count_append,
          List.count_eq_zero_of_not_mem hx, Nat.zero_add]
      · rw [List.count_cons, List.count_cons,
          ih rest (by simpa using Nat.le_of_succ_le_succ hs)]

theorem replaceAux_singleton (a : Char) :
    ∀ (fuel : Nat) (s : List Char), s.length ≤ fuel →
      replaceAux [a] fuel s = s.filter (fun c => !(c == a)) := by
  intro fuel
  induction fuel with
  | zero =>
    intro s hs
    interval_cases h : s.length
    · rw [List.length_eq_zero.1 h]; rfl
  | succ fuel ih =>
    intro s hs
    cases s with
    | nil => rw [replaceAux_nil]; rfl
    | cons c rest =>
      rw [replaceAux]
      have hrest : rest.length ≤ fuel := by
        simpa using Nat.le_of_succ_le_succ hs
      by_cases hac : a = c
      · subst hac
        simp only [List.isPrefixOf, List.isPrefixOf_nil_left, Bool.and_true,
          beq_self_eq_true, Bool.true_and, List.isEmpty_cons, Bool.not_false,
          if_true, List.drop_succ_cons, List.drop_zero, List.filter_cons,
          Bool.not_true, if_false, Bool.false_eq_true]
        exact ih rest hrest
      · have hbeq : (a == c) = false := beq_eq_false_iff_ne.2 hac
        have hc : (c == a) = false := beq_eq_false_iff_ne.2 (Ne.symm hac)
        simp only [List.isPrefixOf, hbeq, Bool.false_and, Bool.and_false,
          Bool.false_eq_true, if_false, List.filter_cons, hc, Bool.not_false,
          if_true]
        rw [ih rest hrest]

theorem listReplace_singleton (a : Char) (s : List Char) :
    listReplace s [a] = s.filter (fun c => !(c == a)) :=
  replaceAux_singleton a s.length s le_rfl

theorem mem_of_mem_listReplace {pat : List Char} {x : Char} {s : List Char}
    (hx : x ∈ listReplace s pat) : x ∈ s :=
  mem_of_mem_replaceAux s.length s hx

theorem count_listReplace {pat : List Char} {x : Char} (hx : x ∉ pat) (s : List Char) :
    (listReplace s pat).count x = s.count x :=
  count_replaceAux hx s.length s le_rfl

/-! ## Lemmas about the integer parser -/

theorem isPyWhitespace_eq_false_of_isDig {c : Char} (h : isDig c = true) :
    isPyWhitespace c = false := by
  simp only [isDig, Bool.and_eq_true, decide_eq_true_eq] at h
  simp only [isPyWhitespace, Bool.or_eq_false_iff, Bool.and_eq_false_iff,
    decide_eq_false_iff_not]
  omega

theorem ne_of_isDig {c : Char} (h : isDig c = true) (d : Char)
    (hd : d.toNat < 48 ∨ 57 < d.toNat) : c ≠ d := by
  simp only [isDig, Bool.and_eq_true, decide_eq_true_eq] at h
  intro he
  subst he
  omega

theorem digitCore_cons (acc : Nat) (c : Char) (rest : List Char) :
    digitCore acc (c :: rest) =
      if isDig c then digitCore (10 * acc + digitVal c) rest
      else if c = '_' then
        match rest with
        | d :: rest2 => if isDig d then digitCore (10 * acc + digitVal d) rest2 else none
        | [] => none
      else none := by
  cases rest with
  | nil => rw [digitCore.eq_3]
  | cons d rest2 => rw [digitCore.eq_2]

theorem parseDigits_cons (c : Char) (rest : List Char) :
    parseDigits (c :: rest) = if isDig c then digitCore 0 (c :: rest) else none := rfl

theorem digitCore_all_digits :
    ∀ (s : List Char) (acc : Nat), (∀ c ∈ s, isDig c = true) →
      digitCore acc s = some (s.foldl (fun a c => 10 * a + digitVal c) acc) := by
  intro s
  induction s with
  | nil => intro acc _; rfl
  | cons c rest ih =>
    intro acc hall
    have hc : isDig c = true := hall c (List.mem_cons_self c rest)
    rw [digitCore_cons, if_pos hc, List.foldl_cons]
    exact ih _ (fun d hd => hall d (List.mem_cons_of_mem c hd))

theorem dropWhile_eq_self_of_forall {p : Char → Bool} {l : List Char}
    (h : ∀ c ∈ l, p c = false) : l.dropWhile p = l := by
  cases l with
  | nil => rfl
  | cons c rest =>
    rw [List.dropWhile_cons, if_neg]
    simp [h c (List.mem_cons_self c rest)]

theorem pyStrip_eq_self {s : List Char}
    (h : ∀ c ∈ s, isPyWhitespace c = false) : pyStrip s = s := by
  unfold pyStrip
  rw [dropWhile_eq_self_of_forall h,
    dropWhile_eq_self_of_forall (fun c hc => h c (List.mem_reverse.1 hc)),
    List.reverse_reverse]

theorem mem_pyStrip {s : List Char} {c : Char} (h : c ∈ pyStrip s) : c ∈ s := by
  unfold pyStrip at h
  rw [List.mem_reverse] at h
  have h2 := (@List.dropWhile_sublist Char ((s.dropWhile isPyWhitespace).reverse)
    isPyWhitespace).subset h
  rw [List.mem_reverse] at h2
  exact (@List.dropWhile_sublist Char s isPyWhitespace).subset h2

/-- The digit-string value: the number denoted by a list of ASCII digits. -/
def digitsValue (s : List Char) : Nat :=
  s.foldl (fun a c => 10 * a + digitVal c) 0

theorem pyIntParse_of_strip_nil {s : List Char} (hstrip : pyStrip s = []) :
    pyIntParse s = none := by
  unfold pyIntParse
  rw [hstrip]

theorem pyIntParse_of_strip_cons {s : List Char} {c : Char} {rest : List Char}
    (hstrip : pyStrip s = c :: rest) :
    pyIntParse s =
      if c = '+' then (parseDigits rest).map Int.ofNat
      else if c = '-' then (parseDigits rest).map (fun n => -(n : Int))
      else (parseDigits (c :: rest)).map Int.ofNat := by
  unfold pyIntParse
  rw [hstrip]

theorem pyIntParse_all_digits {s : List Char} (hne : s ≠ [])
    (hall : ∀ c ∈ s, isDig c = true) :
    pyIntParse s = some (Int.ofNat (digitsValue s)) := by
  have hstrip : pyStrip s = s :=
    pyStrip_eq_self (fun c hc => isPyWhitespace_eq_false_of_isDig (hall c hc))
  cases hs : s with
  | nil => exact absurd hs hne
  | cons c rest =>
    subst hs
    have hc : isDig c = true := hall c (List.mem_cons_self c rest)
    rw [pyIntParse_of_strip_cons hstrip,
      if_neg (ne_of_isDig hc '+' (by decide)), if_neg (ne_of_isDig hc '-' (by decide)),
      parseDigits_cons, if_pos hc, digitCore_all_digits _ _ hall]
    rfl

theorem pyIntParse_nonneg {s : List Char} {n : Int}
    (h : pyIntParse s = some n) (hminus : '-' ∉ s) : 0 ≤ n := by
  cases hstrip : pyStrip s with
  | nil => rw [pyIntParse_of_strip_nil hstrip] at h; exact absurd h (by simp)
  | cons c rest =>
    rw [pyIntParse_of_strip_cons hstrip] at h
    by_cases hplus : c = '+'
    · rw [if_pos hplus] at h
      obtain ⟨m, _, hm⟩ := Option.map_eq_some'.1 h
      rw [← hm]
      exact Int.ofNat_nonneg m
    · rw [if_neg hplus] at h
      by_cases hm : c = '-'
      · exfalso
        apply hminus
        apply mem_pyStrip
        rw [hstrip, ← hm]
        exact List.mem_cons_self c rest
      · rw [if_neg hm] at h
        obtain ⟨m, _, hmm⟩ := Option.map_eq_some'.1 h
        rw [← hmm]
        exact Int.ofNat_nonneg m

/-! ## `pyJoin` agrees with the library's join-with-separator -/

theorem pyJoin_append_left (sep : String) :
    ∀ (as : List String) (acc a : String),
      pyJoin sep ((acc ++ sep ++ a) :: as) = acc ++ sep ++ pyJoin sep (a :: as) := by
  intro as acc a
  cases as with
  | nil => rfl
  | cons b bs =>
    show (acc ++ sep ++ a) ++ sep ++ pyJoin sep (b :: bs)
        = acc ++ sep ++ (a ++ sep ++ pyJoin sep (b :: bs))
    simp [String.append_assoc]

theorem intercalate_go_eq_pyJoin (sep : String) :
    ∀ (as : List String) (acc : String),
      String.intercalate.go acc sep as = pyJoin sep (acc :: as) := by
  intro as
  induction as with
  | nil => intro acc; rfl
  | cons a as ih =>
    intro acc
    rw [String.intercalate.go, ih (acc ++ sep ++ a), pyJoin_append_left]
    rfl

theorem pyJoin_eq_intercalate (sep : String) (xs : List String) :
    pyJoin sep xs = String.intercalate sep xs := by
  cases xs with
  | nil => rfl
  | cons a as => rw [String.intercalate, intercalate_go_eq_pyJoin]

/-! ## Lemmas about the normalize-and-insert loops -/

theorem insertVacancy_data (db : DB) (d : VacancyData) :
    (insertVacancy db d).1.data = d := by
  cases d; rfl

theorem insertApplicant_data (db : DB) (d : ApplicantData) :
    (insertApplicant db d).1.data = d := by
  cases d; rfl

theorem vacancyLoop_acc :
    ∀ (blocks : List FieldBlock) (acc : List Vacancy) (db : DB),
      vacancyLoop blocks acc db
        = (acc ++ (vacancyLoop blocks [] db).1, (vacancyLoop blocks [] db).2) := by
  intro blocks
  induction blocks with
  | nil => intro acc db; simp [vacancyLoop]
  | cons b rest ih =>
    intro acc db
    cases hb : normalizeVacancy b with
    | none => simp only [vacancyLoop, hb]; exact ih acc db
    | some d =>
      simp only [vacancyLoop, hb, List.nil_append]
      rw [ih (acc ++ [(insertVacancy db d).1]) (insertVacancy db d).2,
        ih [(insertVacancy db d).1] (insertVacancy db d).2]
      simp [List.append_assoc]

theorem applicantLoop_acc :
    ∀ (blocks : List ApplicantBlock) (acc : List Applicant) (db : DB),
      applicantLoop blocks acc db
        = (acc ++ (applicantLoop blocks [] db).1, (applicantLoop blocks [] db).2) := by
  intro blocks
  induction blocks with
  | nil => intro acc db; simp [applicantLoop]
  | cons b rest ih =>
    intro acc db
    cases hb : normalizeApplicant b with
    | none => simp only [applicantLoop, hb]; exact ih acc db
    | some d =>
      simp only [applicantLoop, hb, List.nil_append]
      rw [ih (acc ++ [(insertApplicant db d).1]) (insertApplicant db d).2,
        ih [(insertApplicant db d).1] (insertApplicant db d).2]
      simp [List.append_assoc]

theorem vacancyLoop_map_data :
    ∀ (blocks : List FieldBlock) (db : DB),
      ((vacancyLoop blocks [] db).1).map Vacancy.data
        = blocks.filterMap normalizeVacancy := by
  intro blocks
  induction blocks with
  | nil => intro db; rfl
  | cons b rest ih =>
    intro db
    cases hb : normalizeVacancy b with
    | none => simp only [vacancyLoop, hb, List.filterMap_cons_none hb]; exact ih db
    | some d =>
      simp only [vacancyLoop, hb, List.filterMap_cons_some hb, List.nil_append]
      rw [vacancyLoop_acc rest [(insertVacancy db d).1] (insertVacancy db d).2]
      simp only [List.map_append, List.map_cons, List.map_nil, List.singleton_append,
        insertVacancy_data]
      rw [ih (insertVacancy db d).2]

theorem applicantLoop_map_data :
    ∀ (blocks : List ApplicantBlock) (db : DB),
      ((applicantLoop blocks [] db).1).map Applicant.data
        = blocks.filterMap normalizeApplicant := by
  intro blocks
  induction blocks with
  | nil => intro db; rfl
  | cons b rest ih =>
    intro db
    cases hb : normalizeApplicant b with
    | none => simp only [applicantLoop, hb, List.filterMap_cons_none hb]; exact ih db
    | some d =>
      simp only [applicantLoop, hb, List.filterMap_cons_some hb, List.nil_append]
      rw [applicantLoop_acc rest [(insertApplicant db d).1] (insertApplicant db d).2]
      simp only [List.map_append, List.map_cons, List.map_nil, List.singleton_append,
        insertApplicant_data]
      rw [ih (insertApplicant db d).2]

theorem vacancyLoop_db_vacancies :
    ∀ (blocks : List FieldBlock) (db : DB),
      (vacancyLoop blocks [] db).2.vacancies
        = db.vacancies ++ (vacancyLoop blocks [] db).1 := by
  intro blocks
  induction blocks with
  | nil => intro db; simp [vacancyLoop]
  | cons b rest ih =>
    intro db
    cases hb : normalizeVacancy b with
    | none => simp only [vacancyLoop, hb]; exact ih db
    | some d =>
      simp only [vacancyLoop, hb, List.nil_append]
      rw [vacancyLoop_acc rest [(insertVacancy db d).1] (insertVacancy db d).2,
        ih (insertVacancy db d).2]
      show (insertVacancy db d).2.vacancies ++ _ = _
      simp [insertVacancy, List.append_assoc]

theorem applicantLoop_db_applicants :
    ∀ (blocks : List ApplicantBlock) (db : DB),
      (applicantLoop blocks [] db).2.applicants
        = db.applicants ++ (applicantLoop blocks [] db).1 := by
  intro blocks
  induction blocks with
  | nil => intro db; simp [applicantLoop]
  | cons b rest ih =>
    intro db
    cases hb : normalizeApplicant b with
    | none => simp only [applicantLoop, hb]; exact ih db
    | some d =>
      simp only [applicantLoop, hb, List.nil_append]
      rw [applicantLoop_acc rest [(insertApplicant db d).1] (insertApplicant db d).2,
        ih (insertApplicant db d).2]
      show (insertApplicant db d).2.applicants ++ _ = _
      simp [insertApplicant, List.append_assoc]

theorem vacancyLoop_db_applicants :
    ∀ (blocks : List FieldBlock) (acc : List Vacancy) (db : DB),
      (vacancyLoop blocks acc db).2.applicants = db.applicants := by
  intro blocks
  induction blocks with
  | nil => intro acc db; rfl
  | cons b rest ih =>
    intro acc db
    cases hb : normalizeVacancy b with
    | none => simp only [vacancyLoop, hb]; exact ih acc db
    | some d =>
      simp only [vacancyLoop, hb, List.nil_append]
      rw [ih (acc ++ [(insertVacancy db d).1]) (insertVacancy db d).2]
      rfl

theorem applicantLoop_db_vacancies :
    ∀ (blocks : List ApplicantBlock) (acc : List Applicant) (db : DB),
      (applicantLoop blocks acc db).2.vacancies = db.vacancies := by
  intro blocks
  induction blocks with
  | nil => intro acc db; rfl
  | cons b rest ih =>
    intro acc db
    cases hb : normalizeApplicant b with
    | none => simp only [applicantLoop, hb]; exact ih acc db
    | some d =>
      simp only [applicantLoop, hb, List.nil_append]
      rw [ih (acc ++ [(insertApplicant db d).1]) (insertApplicant db d).2]
      rfl

theorem vacancyLoop_length :
    ∀ (blocks : List FieldBlock) (db : DB),
      (vacancyLoop blocks [] db).2.vacancies.length
        = db.vacancies.length + (blocks.filterMap normalizeVacancy).length := by
  intro blocks db
  rw [vacancyLoop_db_vacancies, List.length_append, ← vacancyLoop_map_data blocks db,
    List.length_map]

/-- Dropping a block that normalizes to nothing leaves the whole loop run
unchanged: no output entry, no insert, no error. -/
theorem vacancyLoop_skip :
    ∀ (pre : List FieldBlock) {b : FieldBlock} (post : List FieldBlock)
      (acc : List Vacancy) (db : DB), normalizeVacancy b = none →
      vacancyLoop (pre ++ b :: post) acc db = vacancyLoop (pre ++ post) acc db := by
  intro pre
  induction pre with
  | nil =>
    intro b post acc db hb
    simp only [List.nil_append, vacancyLoop, hb]
  | cons p pre' ih =>
    intro b post acc db hb
    cases hp : normalizeVacancy p with
    | none => simp only [List.cons_append, vacancyLoop, hp]; exact ih post acc db hb
    | some d =>
      simp only [List.cons_append, vacancyLoop, hp]
      exact ih post _ _ hb

/-- The applicant analogue of `vacancyLoop_skip`. -/
theorem applicantLoop_skip :
    ∀ (pre : List ApplicantBlock) {b : ApplicantBlock} (post : List ApplicantBlock)
      (acc : List Applicant) (db : DB), normalizeApplicant b = none →
      applicantLoop (pre ++ b :: post) acc db = applicantLoop (pre ++ post) acc db := by
  intro pre
  induction pre with
  | nil =>
    intro b post acc db hb
    simp only [List.nil_append, applicantLoop, hb]
  | cons p pre' ih =>
    intro b post acc db hb
    cases hp : normalizeApplicant p with
    | none => simp only [List.cons_append, applicantLoop, hp]; exact ih post acc db hb
    | some d =>
      simp only [List.cons_append, applicantLoop, hp]
      exact ih post _ _ hb

/-- Scanning a string that is `pre ++ 'руб.'` where no character of `pre` is
`'р'`: no match can start inside `pre`, so exactly the suffix is deleted. -/
theorem replaceAux_strip_suffix :
    ∀ (pre : List Char), (∀ c ∈ pre, c ≠ 'р') →
      ∀ (fuel : Nat), pre.length + 4 ≤ fuel →
        replaceAux rubChars fuel (pre ++ rubChars) = pre := by
  intro pre
  induction pre with
  | nil =>
    intro _ fuel hfuel
    rw [List.nil_append]
    cases fuel with
    | zero => omega
    | succ f =>
      show replaceAux rubChars (f + 1) ('р' :: ['у', 'б', '.']) = []
      rw [replaceAux, if_pos (by decide)]
      exact replaceAux_nil rubChars f
  | cons c pre' ih =>
    intro hall fuel hfuel
    cases fuel with
    | zero => simp only [List.length_cons] at hfuel; omega
    | succ f =>
      rw [List.cons_append, replaceAux]
      have hbeq : ('р' == c) = false :=
        beq_eq_false_iff_ne.2 (Ne.symm (hall c (List.mem_cons_self c pre')))
      rw [if_neg]
      · rw [ih (fun x hx => hall x (List.mem_cons_of_mem c hx)) f
          (by simp only [List.length_cons] at hfuel; omega)]
      · show ¬(rubChars.isPrefixOf (c :: (pre' ++ rubChars)) && !rubChars.isEmpty) = true
        simp only [rubChars, List.isPrefixOf, hbeq, Bool.false_and, Bool.and_false]
        exact Bool.false_ne_true

/-- `listReplace` version of `replaceAux_strip_suffix`. -/
theorem listReplace_strip_suffix {pre : List Char} (h : ∀ c ∈ pre, c ≠ 'р') :
    listReplace (pre ++ rubChars) rubChars = pre := by
  unfold listReplace
  exact replaceAux_strip_suffix pre h (pre ++ rubChars).length
    (by simp [rubChars])

/-- The vacancies table after a loop run, viewed through `Vacancy.data`. -/
theorem vacancyLoop_db_map_data (blocks : List FieldBlock) (db : DB) :
    (vacancyLoop blocks [] db).2.vacancies.map Vacancy.data
      = db.vacancies.map Vacancy.data ++ blocks.filterMap normalizeVacancy := by
  rw [vacancyLoop_db_vacancies, List.map_append, vacancyLoop_map_data]

/-! ## Endpoint reduction lemmas -/

theorem getVacancies_non200 {status : Nat} (h : status ≠ 200) (content : List Nat)
    (detect : List Nat → Option String) (decodeWith : String → List Nat → Option String)
    (extract : String → List FieldBlock) (db : DB) :
    getVacancies status content detect decodeWith extract db
      = (Except.error (AppError.httpException status "Error fetching data from hh.ru"), db) := by
  unfold getVacancies
  rw [if_pos h]

theorem getApplicants_non200 {status : Nat} (h : status ≠ 200) (content : List Nat)
    (detect : List Nat → Option String) (decodeWith : String → List Nat → Option String)
    (extract : String → List ApplicantBlock) (db : DB) :
    getApplicants status content detect decodeWith extract db
      = (Except.error (AppError.httpException status "Error fetching data from hh.ru"), db) := by
  unfold getApplicants
  rw [if_pos h]

theorem getVacancies_ok {content : List Nat} {detect : List Nat → Option String}
    {decodeWith : String → List Nat → Option String} {text : String}
    (hdec : decodeStep content detect decodeWith = Except.ok text)
    (extract : String → List FieldBlock) (db : DB) :
    getVacancies 200 content detect decodeWith extract db
      = (Except.ok (vacancyLoop (extract text) [] db).1,
         (vacancyLoop (extract text) [] db).2) := by
  unfold getVacancies
  rw [if_neg (by decide), hdec]

theorem getApplicants_ok {content : List Nat} {detect : List Nat → Option String}
    {decodeWith : String → List Nat → Option String} {text : String}
    (hdec : decodeStep content detect decodeWith = Except.ok text)
    (extract : String → List ApplicantBlock) (db : DB) :
    getApplicants 200 content detect decodeWith extract db
      = (Except.ok (applicantLoop (extract text) [] db).1,
         (applicantLoop (extract text) [] db).2) := by
  unfold getApplicants
  rw [if_neg (by decide), hdec]

/-! ## The claims -/

/-- C1, counterexample.  The claim says the detect-then-decode step never
raises.  It does: even with a detector that always answers `utf-8` and a
codec table on which every decode succeeds, a response body consisting of
the single byte `0xFF` (not valid UTF-8) makes the unconditional first
`response.content.decode('utf-8')` raise `UnicodeDecodeError`. -/
theorem C1_decode_raises_counterexample :
    decodeStep [0xFF] (fun _ => some "utf-8") (fun _ _ => some "")
      = Except.error PyError.unicodeDecodeError := rfl

/-- C1, corrected.  The detect-then-decode step of both pipelines has no
fallback encoding at all: (i) whenever the body is not valid UTF-8, the
unconditional first `decode('utf-8')` raises `UnicodeDecodeError`, whatever
the detector and the codec registry do; (ii) whenever the body is valid
UTF-8 but detection yields no encoding label (as `chardet` does for empty
or undetectable input), the second `decode(None)` raises `TypeError`
instead of falling back. -/
theorem C1_decode_step_raises (content : List Nat)
    (detect : List Nat → Option String)
    (decodeWith : String → List Nat → Option String) :
    (utf8Valid content = false →
      decodeStep content detect decodeWith = Except.error PyError.unicodeDecodeError)
    ∧ (utf8Valid content = true → detect content = none →
      decodeStep content detect decodeWith = Except.error PyError.typeError) := by
  constructor
  · intro h
    unfold decodeStep
    rw [h]
    rfl
  · intro h hd
    unfold decodeStep
    rw [h, hd]
    rfl

/-- Witness for C1: both raising branches realised at concrete inputs — an
invalid UTF-8 body, and an empty body on which detection yields no label. -/
theorem C1_decode_step_raises_witness :
    decodeStep [0xC3] (fun _ => some "utf-8") (fun _ _ => some "")
      = Except.error PyError.unicodeDecodeError
    ∧ decodeStep [] (fun _ => none) (fun _ _ => some "")
      = Except.error PyError.typeError :=
  ⟨(C1_decode_step_raises [0xC3] (fun _ => some "utf-8") (fun _ _ => some "")).1 rfl,
   (C1_decode_step_raises [] (fun _ => none) (fun _ _ => some "")).2 rfl rfl⟩

/-- C4: a vacancy block whose title or description is absent, or an
applicant block whose name is absent, normalizes to nothing, and the whole
pipeline run behaves exactly as if the block were not in the document: no
record, no insert, no error — never a partial record. -/
theorem C4_required_field_missing :
    (∀ (b : FieldBlock) (pre post : List FieldBlock) (acc : List Vacancy) (db : DB),
      b.title = none ∨ b.description = none →
      normalizeVacancy b = none ∧
        vacancyLoop (pre ++ b :: post) acc db = vacancyLoop (pre ++ post) acc db)
    ∧ (∀ (a : ApplicantBlock) (pre post : List ApplicantBlock)
        (acc : List Applicant) (db : DB),
      a.name = none →
      normalizeApplicant a = none ∧
        applicantLoop (pre ++ a :: post) acc db = applicantLoop (pre ++ post) acc db) := by
  constructor
  · intro b pre post acc db hb
    have hn : normalizeVacancy b = none := by
      rcases hb with h | h <;> simp [normalizeVacancy, pyTruthy, h]
    exact ⟨hn, vacancyLoop_skip pre post acc db hn⟩
  · intro a pre post acc db ha
    have hn : normalizeApplicant a = none := by
      simp [normalizeApplicant, pyTruthy, ha]
    exact ⟨hn, applicantLoop_skip pre post acc db hn⟩

/-- Witness for C4: a block with a description but no title is dropped from
a run in which it sits between two valid blocks, and an applicant block with
no name likewise. -/
theorem C4_required_field_missing_witness :
    (normalizeVacancy ⟨none, some "Build stuff", [], none, none⟩ = none ∧
      vacancyLoop ([⟨some "A", some "B", [], none, none⟩] ++
          ⟨none, some "Build stuff", [], none, none⟩ :: [⟨some "C", some "D", [], none, none⟩])
          [] emptyDB
        = vacancyLoop ([⟨some "A", some "B", [], none, none⟩] ++
          [⟨some "C", some "D", [], none, none⟩]) [] emptyDB)
    ∧ (normalizeApplicant ⟨none, ["Python"]⟩ = none ∧
      applicantLoop ([] ++ ⟨none, ["Python"]⟩ :: []) [] emptyDB
        = applicantLoop ([] ++ []) [] emptyDB) :=
  ⟨C4_required_field_missing.1 ⟨none, some "Build stuff", [], none, none⟩
      [⟨some "A", some "B", [], none, none⟩] [⟨some "C", some "D", [], none, none⟩]
      [] emptyDB (Or.inl rfl),
   C4_required_field_missing.2 ⟨none, ["Python"]⟩ [] [] [] emptyDB rfl⟩

/-- C5: whenever the upstream response has a non-200 status, both endpoints
abort immediately with an `HTTPException` carrying that same status code and
the fixed error detail, the store is returned unchanged (zero inserts), and
this holds whatever the body and the parsing collaborators would have
produced — the abort happens before any decoding or parsing. -/
theorem C5_non200_aborts (status : Nat) (content : List Nat)
    (detect : List Nat → Option String)
    (decodeWith : String → List Nat → Option String)
    (extractV : String → List FieldBlock) (extractA : String → List ApplicantBlock)
    (db : DB) (h : status ≠ 200) :
    getVacancies status content detect decodeWith extractV db
      = (Except.error (AppError.httpException status "Error fetching data from hh.ru"), db)
    ∧ getApplicants status content detect decodeWith extractA db
      = (Except.error (AppError.httpException status "Error fetching data from hh.ru"), db) :=
  ⟨getVacancies_non200 h content detect decodeWith extractV db,
   getApplicants_non200 h content detect decodeWith extractA db⟩

/-- Witness for C5: status 503 with a body whose extraction would yield a
valid block — still rejected with 503 and an unchanged empty store. -/
theorem C5_non200_aborts_witness :
    getVacancies 503 [] (fun _ => some "utf-8") (fun _ _ => some "")
        (fun _ => [⟨some "T", some "D", [], none, none⟩]) emptyDB
      = (Except.error (AppError.httpException 503 "Error fetching data from hh.ru"), emptyDB)
    ∧ getApplicants 503 [] (fun _ => some "utf-8") (fun _ _ => some "")
        (fun _ => [⟨some "N", []⟩]) emptyDB
      = (Except.error (AppError.httpException 503 "Error fetching data from hh.ru"), emptyDB) :=
  C5_non200_aborts 503 [] (fun _ => some "utf-8") (fun _ _ => some "")
    (fun _ => [⟨some "T", some "D", [], none, none⟩]) (fun _ => [⟨some "N", []⟩])
    emptyDB (by decide)

/-- C2, counterexample.  The claim says each returned vacancy record
contains the field `salary`.  It does not: `GET /vacancies` serializes
records through the `VacancyResponse` pydantic model, whose field set has no
`salary` entry. -/
theorem C2_salary_not_in_response_counterexample :
    "salary" ∈ claimedVacancyFields ∧ "salary" ∉ vacancyResponseFields := by
  constructor
  · decide
  · decide

/-- C2, corrected.  A successful vacancy pipeline run on a block with
non-empty title and description but no sidebar match and no meta-info match
persists the record with `salary` null and `employment_format` null and
returns it in the result list; but the response model through which
`GET /vacancies` serializes each record has exactly the fields `title`,
`description`, `skills`, `employment_format`, `id` — `salary` is persisted,
not returned (and `employment_format` is declared as required text there). -/
theorem C2_scenario_block (sk : List String) (db : DB) :
    vacancyLoop [⟨some "Engineer", some "Build stuff", sk, none, none⟩] [] db
      = ([⟨db.vacancies.length + 1, "Engineer", "Build stuff", pyJoin ", " sk, none, none⟩],
         { db with vacancies := db.vacancies ++
            [⟨db.vacancies.length + 1, "Engineer", "Build stuff", pyJoin ", " sk, none, none⟩] })
    ∧ vacancyResponseFields = ["title", "description", "skills", "employment_format", "id"]
    ∧ "salary" ∉ vacancyResponseFields := by
  refine ⟨?_, rfl, by decide⟩
  have hn : normalizeVacancy ⟨some "Engineer", some "Build stuff", sk, none, none⟩
      = some ⟨"Engineer", "Build stuff", pyJoin ", " sk, none, none⟩ := by
    have ht : pyTruthy (some "Engineer") = true := by decide
    have hd : pyTruthy (some "Build stuff") = true := by decide
    simp [normalizeVacancy, ht, hd, parseSalary]
  simp [vacancyLoop, hn, insertVacancy]

/-- C3, counterexample.  The claim says every sidebar text matching
`^[\d\s]+руб\.$` parses to its numeric value.  `"123\n456руб."` matches the
pattern (`\n` is in `\s`), but the code strips only ASCII spaces, and
Python's `int` rejects the embedded newline, so the salary is absent. -/
theorem C3_pattern_counterexample :
    matchesSalaryPattern "123\n456руб." = true
    ∧ parseSalary (some "123\n456руб.") = none := by
  constructor
  · decide
  · decide

/-- C3, corrected.  Restricted to sidebar texts of ASCII digits and ASCII
spaces followed by `руб.` (with at least one digit), parsing yields the
number denoted by the digits, with spaces and suffix stripped; whenever the
cleaned remainder fails the integer parse the salary is absent; and the
whole step is a total function — it never throws. -/
theorem C3_salary_digits_spaces (t : String) (pre : List Char)
    (hsplit : t.data = pre ++ rubChars)
    (hpre : ∀ c ∈ pre, isDig c = true ∨ c = ' ')
    (hdig : ∃ c ∈ pre, isDig c = true) :
    parseSalary (some t) = some (Int.ofNat (digitsValue (pre.filter isDig)))
    ∧ ∀ (u : String), pyIntParse (cleanSalary u.data) = none →
        parseSalary (some u) = none := by
  refine ⟨?_, fun u hu => hu⟩
  show pyIntParse (cleanSalary t.data) = _
  have hnotr : ∀ c ∈ pre, c ≠ 'р' := by
    intro c hc
    rcases hpre c hc with h | h
    · exact ne_of_isDig h 'р' (by decide)
    · rw [h]; decide
  have h1 : listReplace t.data rubChars = pre := by
    rw [hsplit]
    exact listReplace_strip_suffix hnotr
  have h2 : cleanSalary t.data = pre.filter isDig := by
    unfold cleanSalary
    rw [h1, listReplace_singleton]
    refine List.filter_congr ?_
    intro c hc
    rcases hpre c hc with h | h
    · rw [h, beq_eq_false_iff_ne.2 (ne_of_isDig h ' ' (by decide))]
      rfl
    · rw [h]; decide
  rw [h2]
  refine pyIntParse_all_digits ?_ ?_
  · obtain ⟨c, hc, hcd⟩ := hdig
    exact List.ne_nil_of_mem (List.mem_filter.2 ⟨hc, hcd⟩)
  · intro c hc
    exact (List.mem_filter.1 hc).2

/-- Witness for C3: `"100 000руб."` — digits and spaces then the suffix —
parses to `100000`. -/
theorem C3_salary_digits_spaces_witness :
    parseSalary (some "100 000руб.") = some (Int.ofNat (digitsValue
      (("100 000".data).filter isDig)))
    ∧ Int.ofNat (digitsValue (("100 000".data).filter isDig)) = 100000 :=
  ⟨(C3_salary_digits_spaces "100 000руб." "100 000".data (by decide)
      (by decide) (by decide)).1,
   by decide⟩

/-- C6, counterexample.  The claim says every persisted salary is absent or
non-negative for every possible sidebar text.  A sidebar text `"-100руб."`
survives cleaning as `"-100"`, Python's `int` accepts the sign, and the
record is persisted with salary `-100 < 0`. -/
theorem C6_negative_salary_counterexample :
    (vacancyLoop [⟨some "A", some "B", [], none, some "-100руб."⟩] [] emptyDB).2.vacancies.map
        Vacancy.salary = [some (-100 : Int)]
    ∧ ¬ (0 : Int) ≤ -100 := by
  constructor
  · decide
  · decide

/-- C6, corrected.  A normalized vacancy record's salary is always either
absent or the integer the cleaned sidebar text parses to — and it is
guaranteed non-negative only when the sidebar text contains no `'-'`
character (absent sidebar always gives an absent salary); the code performs
a plain signed integer parse with no sign check. -/
theorem C6_salary_sign (b : FieldBlock) (d : VacancyData)
    (h : normalizeVacancy b = some d) :
    (b.sidebar = none → d.salary = none)
    ∧ (∀ t : String, b.sidebar = some t → '-' ∉ t.data →
        d.salary = none ∨ ∃ n : Int, d.salary = some n ∧ 0 ≤ n) := by
  have hsal : d.salary = parseSalary b.sidebar := by
    unfold normalizeVacancy at h
    split at h
    · rw [← Option.some.inj h]
    · exact absurd h (by simp)
  constructor
  · intro hb
    rw [hsal, hb]
    rfl
  · intro t ht hminus
    rw [hsal, ht]
    show parseSalary (some t) = none ∨ _
    cases hp : pyIntParse (cleanSalary t.data) with
    | none => exact Or.inl hp
    | some n =>
      refine Or.inr ⟨n, hp, pyIntParse_nonneg hp ?_⟩
      intro hmem
      exact hminus (mem_of_mem_listReplace (mem_of_mem_listReplace hmem))

/-- Witness for C6: a block with sidebar `"100 руб."` (no minus sign)
normalizes to a record whose salary is absent or non-negative. -/
theorem C6_salary_sign_witness :
    VacancyData.salary ⟨"A", "B", "", none, some 100⟩ = none
    ∨ ∃ n : Int, VacancyData.salary ⟨"A", "B", "", none, some 100⟩ = some n ∧ 0 ≤ n :=
  (C6_salary_sign ⟨some "A", some "B", [], none, some "100 руб."⟩
      ⟨"A", "B", "", none, some 100⟩ (by decide)).2 "100 руб." rfl (by decide)

/-- C7: the stored skills string of every normalized record — vacancy or
applicant — is the extracted tokens joined with the separator `", "`
(`pyJoin` is `', '.join` and agrees with the library's join-with-separator),
and in particular `["Python", "SQL"]` is stored as `"Python, SQL"`. -/
theorem C7_skills_joined :
    (∀ xs : List String, pyJoin ", " xs = String.intercalate ", " xs)
    ∧ (∀ (b : FieldBlock) (d : VacancyData),
        normalizeVacancy b = some d → d.skills = pyJoin ", " b.skills)
    ∧ (∀ (a : ApplicantBlock) (d : ApplicantData),
        normalizeApplicant a = some d → d.skills = pyJoin ", " a.skills)
    ∧ pyJoin ", " ["Python", "SQL"] = "Python, SQL" := by
  refine ⟨pyJoin_eq_intercalate ", ", ?_, ?_, by decide⟩
  · intro b d h
    unfold normalizeVacancy at h
    split at h
    · rw [← Option.some.inj h]
    · exact absurd h (by simp)
  · intro a d h
    unfold normalizeApplicant at h
    split at h
    · rw [← Option.some.inj h]
    · exact absurd h (by simp)

/-- Witness for C7: the block with skill tokens `["Python", "SQL"]`
normalizes to a record and its stored skills string is the join. -/
theorem C7_skills_joined_witness :
    normalizeVacancy ⟨some "T", some "D", ["Python", "SQL"], none, none⟩
      = some ⟨"T", "D", "Python, SQL", none, none⟩
    ∧ VacancyData.skills ⟨"T", "D", "Python, SQL", none, none⟩
      = pyJoin ", " ["Python", "SQL"] :=
  ⟨by decide,
   C7_skills_joined.2.1 ⟨some "T", some "D", ["Python", "SQL"], none, none⟩
     ⟨"T", "D", "Python, SQL", none, none⟩ (by decide)⟩

/-- C8: the vacancy pipeline is not idempotent.  Running the endpoint twice
with the same upstream content starting from the empty store simply inserts
every record a second time: the table contents (modulo generated ids) are
the one-run records repeated twice, and the stored record count after the
second invocation is double the count after the first. -/
theorem C8_not_idempotent (content : List Nat)
    (detect : List Nat → Option String)
    (decodeWith : String → List Nat → Option String)
    (extract : String → List FieldBlock) (text : String)
    (hdec : decodeStep content detect decodeWith = Except.ok text) :
    ((getVacancies 200 content detect decodeWith extract
        (getVacancies 200 content detect decodeWith extract emptyDB).2).2).vacancies.map
        Vacancy.data
      = (extract text).filterMap normalizeVacancy
        ++ (extract text).filterMap normalizeVacancy
    ∧ ((getVacancies 200 content detect decodeWith extract
        (getVacancies 200 content detect decodeWith extract emptyDB).2).2).vacancies.length
      = 2 * ((getVacancies 200 content detect decodeWith extract emptyDB).2).vacancies.length := by
  rw [getVacancies_ok hdec extract emptyDB]
  rw [getVacancies_ok hdec extract (vacancyLoop (extract text) [] emptyDB).2]
  constructor
  · rw [vacancyLoop_db_map_data, vacancyLoop_db_map_data]
    simp [emptyDB]
  · rw [vacancyLoop_length, vacancyLoop_length]
    simp [emptyDB, Nat.two_mul]

/-- Witness for C8: one valid block; after the first run the store holds one
record, after the second it holds two — the count doubles. -/
theorem C8_not_idempotent_witness :
    ((getVacancies 200 [] (fun _ => some "utf-8") (fun _ _ => some "")
        (fun _ => [⟨some "T", some "D", [], none, none⟩])
        (getVacancies 200 [] (fun _ => some "utf-8") (fun _ _ => some "")
          (fun _ => [⟨some "T", some "D", [], none, none⟩]) emptyDB).2).2).vacancies.map
        Vacancy.data
      = (([⟨some "T", some "D", [], none, none⟩] : List FieldBlock).filterMap normalizeVacancy)
        ++ (([⟨some "T", some "D", [], none, none⟩] : List FieldBlock).filterMap normalizeVacancy)
    ∧ ((getVacancies 200 [] (fun _ => some "utf-8") (fun _ _ => some "")
        (fun _ => [⟨some "T", some "D", [], none, none⟩])
        (getVacancies 200 [] (fun _ => some "utf-8") (fun _ _ => some "")
          (fun _ => [⟨some "T", some "D", [], none, none⟩]) emptyDB).2).2).vacancies.length
      = 2 * ((getVacancies 200 [] (fun _ => some "utf-8") (fun _ _ => some "")
          (fun _ => [⟨some "T", some "D", [], none, none⟩]) emptyDB).2).vacancies.length :=
  C8_not_idempotent [] (fun _ => some "utf-8") (fun _ _ => some "")
    (fun _ => [⟨some "T", some "D", [], none, none⟩]) "" rfl

/-- C9: the output of each loop is exactly the normalized blocks in document
order (`filterMap` — skipped blocks are simply absent, no indices kept), the
persisted rows are the prior table contents followed by precisely the
returned records in that order, and when zero blocks match the item
selector the endpoint returns `ok []` (HTTP 200, an empty list) with the
store unchanged. -/
theorem C9_output_order (blocks : List FieldBlock) (ablocks : List ApplicantBlock)
    (db : DB) :
    ((vacancyLoop blocks [] db).1).map Vacancy.data = blocks.filterMap normalizeVacancy
    ∧ (vacancyLoop blocks [] db).2.vacancies = db.vacancies ++ (vacancyLoop blocks [] db).1
    ∧ ((applicantLoop ablocks [] db).1).map Applicant.data
        = ablocks.filterMap normalizeApplicant
    ∧ (applicantLoop ablocks [] db).2.applicants
        = db.applicants ++ (applicantLoop ablocks [] db).1
    ∧ (∀ (content : List Nat) (detect : List Nat → Option String)
        (decodeWith : String → List Nat → Option String)
        (extract : String → List FieldBlock) (text : String),
        decodeStep content detect decodeWith = Except.ok text → extract text = [] →
        getVacancies 200 content detect decodeWith extract db = (Except.ok [], db))
    ∧ (∀ (content : List Nat) (detect : List Nat → Option String)
        (decodeWith : String → List Nat → Option String)
        (extract : String → List ApplicantBlock) (text : String),
        decodeStep content detect decodeWith = Except.ok text → extract text = [] →
        getApplicants 200 content detect decodeWith extract db = (Except.ok [], db)) := by
  refine ⟨vacancyLoop_map_data blocks db, vacancyLoop_db_vacancies blocks db,
    applicantLoop_map_data ablocks db, applicantLoop_db_applicants ablocks db, ?_, ?_⟩
  · intro content detect decodeWith extract text hdec hext
    rw [getVacancies_ok hdec extract db, hext]
    rfl
  · intro content detect decodeWith extract text hdec hext
    rw [getApplicants_ok hdec extract db, hext]
    rfl

/-- Witness for C9: a run over a skipped block followed by two valid blocks,
and the zero-match scenario, both at concrete inputs. -/
theorem C9_output_order_witness :
    ((vacancyLoop [⟨none, some "B", [], none, none⟩, ⟨some "T", some "D", [], none, none⟩]
        [] emptyDB).1).map Vacancy.data
      = ([⟨none, some "B", [], none, none⟩,
          ⟨some "T", some "D", [], none, none⟩] : List FieldBlock).filterMap normalizeVacancy
    ∧ getVacancies 200 [] (fun _ => some "utf-8") (fun _ _ => some "") (fun _ => []) emptyDB
      = (Except.ok [], emptyDB) :=
  ⟨(C9_output_order [⟨none, some "B", [], none, none⟩, ⟨some "T", some "D", [], none, none⟩]
      [] emptyDB).1,
   (C9_output_order [] [] emptyDB).2.2.2.2.1 [] (fun _ => some "utf-8") (fun _ _ => some "")
      (fun _ => []) "" rfl rfl⟩

/-- C10: salary cleaning deletes every occurrence of the substring `руб.`
and every ASCII space anywhere in the sidebar text, and deletes no other
whitespace (counts of tabs, non-breaking spaces and the like are preserved);
the salary is the Python integer parse of the cleaned string when it
parses, and absent otherwise — so a mid-string currency token still yields
a number (`"100руб.000"` ↦ `100000`) while a non-breaking-space separator
makes the salary absent. -/
theorem C10_salary_cleaning :
    (∀ (t : List Char) (c : Char), isPyWhitespace c = true → c ≠ ' ' →
      (cleanSalary t).count c = t.count c)
    ∧ (∀ t : List Char, ' ' ∉ cleanSalary t)
    ∧ (∀ t : String, parseSalary (some t) = pyIntParse (cleanSalary t.data))
    ∧ parseSalary (some "100руб.000") = some 100000
    ∧ parseSalary (some "1\u00A0000руб.") = none := by
  refine ⟨?_, ?_, fun t => rfl, by decide, by decide⟩
  · intro t c hws hsp
    have hrub : c ∉ rubChars := by
      intro hmem
      have : ∀ x ∈ rubChars, isPyWhitespace x = false := by decide
      rw [this c hmem] at hws
      exact Bool.false_ne_true hws
    unfold cleanSalary
    rw [count_listReplace (by simpa using hsp), count_listReplace hrub]
  · intro t hmem
    unfold cleanSalary at hmem
    rw [listReplace_singleton] at hmem
    have := (List.mem_filter.1 hmem).2
    simp at this

/-- Witness for C10: a tab inside the sidebar text survives cleaning (its
count is preserved), at the concrete text `"1\t2 руб."`. -/
theorem C10_salary_cleaning_witness :
    (cleanSalary ("1\t2 руб.".data)).count '\t' = ("1\t2 руб.".data).count '\t'
    ∧ ("1\t2 руб.".data).count '\t' = 1 :=
  ⟨C10_salary_cleaning.1 ("1\t2 руб.".data) '\t' (by decide) (by decide),
   by decide⟩

end HHService

